import Mathlib

/-!
Verification of the Diehl & Cook spiking-MNIST implementation
(`Diehl&Cook_spiking_MNIST_Brian2.py`, `synapses.py`, `tuner.py`).

The Python/Brian2 code is shallowly embedded: rates, weights and traces
become rationals, dense weight matrices become lists of per-target-neuron
columns, the per-example training loop becomes an explicit step function on
a state record, and the network simulation itself (an external continuous
process) is abstracted by passing the per-iteration excitatory spike-count
vector as an oracle argument to the loop step.
-/

namespace StdpMnist

/-! ## Basic helpers -/

/-- Brian2's `clip(x, lo, hi)`, used by every plasticity update site:
the value `x` clamped into the interval `[lo, hi]`. -/
def clip (x lo hi : ℚ) : ℚ := min (max x lo) hi

theorem clip_le_hi (x lo hi : ℚ) : clip x lo hi ≤ hi := min_le_right _ _

theorem lo_le_clip (x lo hi : ℚ) (h : lo ≤ hi) : lo ≤ clip x lo hi :=
  le_min (le_max_right _ _) h

theorem clip_sub_le_self (w d m : ℚ) (hw : 0 ≤ w) (hd : 0 ≤ d) :
    clip (w - d) 0 m ≤ w := by
  have h1 : clip (w - d) 0 m ≤ max (w - d) 0 := min_le_left _ _
  have h2 : max (w - d) 0 ≤ w := max_le (by linarith) hw
  linarith

theorem self_le_clip_add (w d m : ℚ) (hd : 0 ≤ d) (hwm : w ≤ m) :
    w ≤ clip (w + d) 0 m :=
  le_min (le_max_of_le_left (by linarith)) hwm

/-! ## Neuron-to-class assignment (`get_new_assignments`) -/

/-- Index of the first maximum of a list (numpy `argmax` tie behaviour:
ties broken by lowest index); `0` on the empty list. -/
def argmaxAux : List ℚ → ℕ → ℕ → ℚ → ℕ
  | [], _, best, _ => best
  | x :: xs, i, best, bv =>
      if bv < x then argmaxAux xs (i + 1) i x else argmaxAux xs (i + 1) best bv

/-- `argmaxIdx l` is the index of the first maximal element of `l`. -/
def argmaxIdx : List ℚ → ℕ
  | [] => 0
  | x :: xs => argmaxAux xs 1 0 x

/-- Elementwise sum of two vectors (`numpy` broadcast addition). -/
def vecAdd (a b : List ℚ) : List ℚ := List.zipWith (· + ·) a b

/-- Sum of a list of `n`-vectors, starting from the zero vector. -/
def vecSum (n : ℕ) (rows : List (List ℚ)) : List ℚ :=
  rows.foldl vecAdd (List.replicate n 0)

/-- Elementwise mean of a list of `n`-vectors (`np.mean(..., axis=0)`). -/
def vecMean (n : ℕ) (rows : List (List ℚ)) : List ℚ :=
  (vecSum n rows).map (fun x => x / (rows.length : ℚ))

/-- The boolean-mask selection `result_monitor[input_labels == c]`:
rows of `rows` whose label in `labels` equals `c`. -/
def selectRows (rows : List (List ℚ)) (labels : List ℕ) (c : ℕ) :
    List (List ℚ) :=
  ((labels.zip rows).filter (fun p => p.1 == c)).map Prod.snd

/-- The `rates` matrix built by `get_new_assignments`: row `c` is the mean
spike-rate vector over all records labelled `c`, or the zero vector when no
record has that label (the `num_labels > 0` guard). -/
def classRates (numClasses n : ℕ) (rows : List (List ℚ)) (labels : List ℕ) :
    List (List ℚ) :=
  (List.range numClasses).map (fun c =>
    if 0 < (labels.filter (fun l => l == c)).length then
      vecMean n (selectRows rows labels c)
    else List.replicate n 0)

/-- The assignment actually computed by the source's `get_new_assignments`
past its shape typo: `rates.argmax(axis=1)`, i.e. for each CLASS the index
of the neuron with the highest mean rate (a vector of length `numClasses`).
The source's own comment promises the per-neuron assignment instead, and the
call `np.zeros(config.num_classes, n_e)` in the source passes `n_e` as a
dtype and raises `TypeError` before any of this runs. -/
def getNewAssignmentsCode (numClasses n : ℕ) (rows : List (List ℚ))
    (labels : List ℕ) : List ℕ :=
  (classRates numClasses n rows labels).map argmaxIdx

/-- Modelled from the spec: `recompute_assignment(records)` assigns each
NEURON the class with the highest mean rate for that neuron, ties broken by
lowest class index (a vector of length `n`, the per-neuron `argmax(axis=0)`
over the same class-mean-rate matrix). -/
def recomputeAssignmentSpec (numClasses n : ℕ) (rows : List (List ℚ))
    (labels : List ℕ) : List ℕ :=
  (List.range n).map (fun k =>
    argmaxIdx ((classRates numClasses n rows labels).map
      (fun row => row.getD k 0)))

/-! ## Class ranking (`get_predicted_class_ranking`) -/

/-- The `mean_rates` vector of `get_predicted_class_ranking`: entry `c` is
the mean of `rates` over neurons with `assignments == c`, and `0` when no
neuron is assigned to `c` (the `num_assignments > 0` guard). -/
def meanRates (numClasses : ℕ) (assignments : List ℕ) (rates : List ℚ) :
    List ℚ :=
  (List.range numClasses).map (fun c =>
    let sel := ((assignments.zip rates).filter (fun p => p.1 == c)).map
      Prod.snd
    if 0 < sel.length then sel.sum / (sel.length : ℚ) else 0)

/-- The descending-mean-rate comparison used to model
`np.argsort(mean_rates)[::-1]`. -/
def rateGE (mr : List ℚ) (a b : ℕ) : Prop := mr.getD b 0 ≤ mr.getD a 0

instance (mr : List ℚ) : DecidableRel (rateGE mr) := fun a b =>
  inferInstanceAs (Decidable (mr.getD b 0 ≤ mr.getD a 0))

/-- `get_predicted_class_ranking(assignments, spike_rates)`: all class
indices sorted by non-increasing mean rate
(`np.argsort(mean_rates)[::-1]`, modelled by a sort under `rateGE`). -/
def getPredictedClassRanking (numClasses : ℕ) (assignments : List ℕ)
    (rates : List ℚ) : List ℕ :=
  (List.range numClasses).insertionSort
    (rateGE (meanRates numClasses assignments rates))

/-! ## Weight renormalization (`normalize_weights`)

The code gathers the all-to-all synapse weights into a dense
`(len_source, len_target)` array, computes per-target-neuron column sums
(`connweights.sum(axis=0)`), multiplies each column by
`weight['ee_input'] / colSums`, and scatters the result back.  Since every
step is per-column, the matrix is embedded column-major: one list of
incoming weights per target neuron. -/

/-- One column (the incoming weights of one target neuron) rescaled by
`target / colSum`, exactly as `connweights *= colFactors` does. -/
def normalizeColumn (target : ℚ) (col : List ℚ) : List ℚ :=
  col.map (fun w => w * (target / col.sum))

/-- `normalize_weights` restricted to one e→e connection matrix, stored as
a list of per-target-neuron columns. -/
def normalizeWeights (target : ℚ) (cols : List (List ℚ)) : List (List ℚ) :=
  cols.map (normalizeColumn target)

/-! ## IEEE-style value model for the unguarded division (`normalize_weights`
with a zero column sum)

`colFactors = weight['ee_input'] / colSums` divides by the column sum with
no guard.  Under numpy's float semantics a positive value divided by zero
is `inf` (with a warning, not an exception) and `0 * inf` is `nan`.  The
extended-value type below captures exactly the IEEE-754 behaviour of the
operations this code path performs. -/

/-- An IEEE-754-style extended value: `nan`, a signed infinity
(`inf true` is negative infinity), or a finite value. -/
inductive FloatVal where
  | nan : FloatVal
  | inf : Bool → FloatVal
  | fin : ℚ → FloatVal
deriving DecidableEq

/-- IEEE addition on extended values (used for the column sum). -/
def FloatVal.add : FloatVal → FloatVal → FloatVal
  | .nan, _ => .nan
  | _, .nan => .nan
  | .inf s, .inf t => if s = t then .inf s else .nan
  | .inf s, .fin _ => .inf s
  | .fin _, .inf s => .inf s
  | .fin a, .fin b => .fin (a + b)

/-- IEEE multiplication on extended values (`0 * inf = nan`). -/
def FloatVal.mul : FloatVal → FloatVal → FloatVal
  | .nan, _ => .nan
  | _, .nan => .nan
  | .inf s, .inf t => .inf (s != t)
  | .inf s, .fin b => if b = 0 then .nan else .inf (s != decide (b < 0))
  | .fin b, .inf s => if b = 0 then .nan else .inf (s != decide (b < 0))
  | .fin a, .fin b => .fin (a * b)

/-- IEEE division on extended values (`x / 0 = ±inf` for `x ≠ 0`,
`0 / 0 = nan`). -/
def FloatVal.div : FloatVal → FloatVal → FloatVal
  | .nan, _ => .nan
  | _, .nan => .nan
  | .inf _, .inf _ => .nan
  | .inf s, .fin b => .inf (s != decide (b < 0))
  | .fin _, .inf _ => .fin 0
  | .fin a, .fin b =>
      if b = 0 then (if a = 0 then .nan else .inf (decide (a < 0)))
      else .fin (a / b)

/-- Whether an extended value is a finite number (not `inf` or `nan`). -/
def FloatVal.isFinite : FloatVal → Bool
  | .fin _ => true
  | _ => false

/-- Column sum under IEEE semantics (`connweights.sum(axis=0)`). -/
def sumF (col : List FloatVal) : FloatVal := col.foldl FloatVal.add (.fin 0)

/-- `normalize_weights` on one column under IEEE semantics: every incoming
weight is multiplied by `target / colSum` with no guard on `colSum`. -/
def normalizeColumnF (target : FloatVal) (col : List FloatVal) :
    List FloatVal :=
  col.map (fun w => w.mul (target.div (sumF col)))

/-! ## Plasticity rule weight updates (`DiehlAndCookSynapses`, `synapses.py`,
and `eqs_stdp_pre_ee` / `eqs_stdp_post_ee` in the main script)

Each Brian2 `on_pre` / `on_post` handler is embedded as a function of the
relevant trace values and the current weight, returning the updated state.
Rule parameters (`nu_…`, `wmax`, …) are arguments; the source's namespace
values appear in the concrete theorems.  The `mu` exponents (`3.0` in the
source namespaces) are embedded as natural powers, matching the float power
on the nonnegative values at which the code evaluates them.  The
`exponential` rule's `exp` is abstracted as a function argument since the
clamping behaviour does not depend on it. -/

/-- `original` rule (and the main script's `eqs_stdp_pre_ee`), pre-spike
weight update: `w = clip(w + nu_ee_pre * post1, 0, wmax_ee)`.  Note the
`+` sign: the source comment says this sign appears to be wrong compared
to the referenced triplet model. -/
def originalPre (nuEePre wmaxEe w post1 : ℚ) : ℚ :=
  clip (w + nuEePre * post1) 0 wmaxEe

/-- `original` rule (and `eqs_stdp_post_ee`), post-spike weight update:
`w = clip(w + nu_ee_post * pre * post2, 0, wmax_ee)` (the main script
evaluates `post2before`, i.e. the pre-reset value of `post2`, which is the
`post2` argument here). -/
def originalPost (nuEePost wmaxEe w pre post2 : ℚ) : ℚ :=
  clip (w + nuEePost * pre * post2) 0 wmaxEe

/-- `minimal-triplet` rule, pre-spike weight update:
`w = clip(w - post1 * nu_pair_pre, 0, wmax)`. -/
def minimalTripletPre (nuPairPre wmax w post1 : ℚ) : ℚ :=
  clip (w - post1 * nuPairPre) 0 wmax

/-- `minimal-triplet` rule, post-spike weight update:
`w = clip(w + pre * nu_triple_post * post2, 0, wmax)`. -/
def minimalTripletPost (nuTriplePost wmax w pre post2 : ℚ) : ℚ :=
  clip (w + pre * nuTriplePost * post2) 0 wmax

/-- `full-triplet` rule, pre-spike weight update:
`w = clip(w - post1 * (nu_pair_pre + nu_triple_pre * pre2), 0, wmax)`. -/
def fullTripletPre (nuPairPre nuTriplePre wmax w post1 pre2 : ℚ) : ℚ :=
  clip (w - post1 * (nuPairPre + nuTriplePre * pre2)) 0 wmax

/-- `full-triplet` rule, post-spike weight update:
`w = clip(w + pre1 * (nu_pair_post + nu_triple_post * post2), 0, wmax)`. -/
def fullTripletPost (nuPairPost nuTriplePost wmax w pre1 post2 : ℚ) : ℚ :=
  clip (w + pre1 * (nuPairPost + nuTriplePost * post2)) 0 wmax

/-- `powerlaw` rule, pre-spike handler: only the trace is changed
(`pre = pre + 1.0`); the weight is untouched.  Returns
`(new trace, weight)`. -/
def powerlawPre (pre w : ℚ) : ℚ × ℚ := (pre + 1, w)

/-- `powerlaw` rule, post-spike weight update:
`w = clip(w + nu * (pre - tar) * (wmax - w)**mu, 0, wmax)`. -/
def powerlawPost (nu tar wmax : ℚ) (mu : ℕ) (w pre : ℚ) : ℚ :=
  clip (w + nu * (pre - tar) * (wmax - w) ^ mu) 0 wmax

/-- `exponential` rule, pre-spike handler: only the trace is changed
(`pre = pre + 1.0`); the weight is untouched. -/
def exponentialPre (pre w : ℚ) : ℚ × ℚ := (pre + 1, w)

/-- `exponential` rule, post-spike weight update:
`w = clip(w + nu * (pre * exp(-beta*w) - tar * exp(-beta*(wmax-w))), 0, wmax)`
with `exp` abstracted as `expFn`. -/
def exponentialPost (expFn : ℚ → ℚ) (nu tar beta wmax w pre : ℚ) : ℚ :=
  clip (w + nu * (pre * expFn (-(beta * w)) - tar * expFn (-(beta * (wmax - w)))))
    0 wmax

/-- `symmetric` rule, pre-spike weight update:
`w = clip(w - nu_pre * pre * w**mu, 0, wmax)`. -/
def symmetricPre (nuPre wmax : ℚ) (mu : ℕ) (w pre : ℚ) : ℚ :=
  clip (w - nuPre * pre * w ^ mu) 0 wmax

/-- `symmetric` rule, post-spike weight update:
`w = clip(w + nu_post * (pre - tar) * (wmax - w)**mu, 0, wmax)`. -/
def symmetricPost (nuPost tar wmax : ℚ) (mu : ℕ) (w pre : ℚ) : ℚ :=
  clip (w + nuPost * (pre - tar) * (wmax - w) ^ mu) 0 wmax

/-- `tsodyks` short-term rule, pre-spike handler: facilitation update
`u = u + U_0*(1-u)`, release `r = u*x`, depression `x = x - r`, then
`w = clip(w + w*r*lr, 0, wmax_ee)`.  Returns `(u, x, w)` after the spike. -/
def tsodyksPre (uZero lr wmaxEe u x w : ℚ) : ℚ × ℚ × ℚ :=
  let u1 := u + uZero * (1 - u)
  let r := u1 * x
  let x1 := x - r
  (u1, x1, clip (w + w * r * lr) 0 wmaxEe)

/-- `markham` short-term rule, pre-spike handler:
`w = clip(w + u*x*w*lr, 0, wmax_ee)`, then `x = x*(1-u)` and
`u = u + U*(1-u)`.  Returns `(u, x, w)` after the spike. -/
def markhamPre (uCap lr wmaxEe u x w : ℚ) : ℚ × ℚ × ℚ :=
  let w1 := clip (w + u * x * w * lr) 0 wmaxEe
  let x1 := x * (1 - u)
  let u1 := u + uCap * (1 - u)
  (u1, x1, w1)

/-- `moraitis` short-term rule, pre-spike handler:
`f = clip(f + nu_ee_pre * post1, 0, wmax_ee)` then
`w = clip(w + f*lr_pre, 0, wmax_ee)`.  Returns `(f, w)` after the spike. -/
def moraitisPre (nuEePre lrPre wmaxEe f post1 w : ℚ) : ℚ × ℚ :=
  let f1 := clip (f + nuEePre * post1) 0 wmaxEe
  (f1, clip (w + f1 * lrPre) 0 wmaxEe)

/-- `moraitis` short-term rule, post-spike handler:
`f = clip(f + nu_ee_post * pre * post2, 0, wmax_ee)` then
`w = clip(w + f*lr_post, 0, wmax_ee)`.  Returns `(f, w)`. -/
def moraitisPost (nuEePost lrPost wmaxEe f pre post2 w : ℚ) : ℚ × ℚ :=
  let f1 := clip (f + nuEePost * pre * post2) 0 wmaxEe
  (f1, clip (w + f1 * lrPost) 0 wmaxEe)

/-! ## Theta (adaptive threshold) dynamics

Training mode (`else` branch of `test_mode`): the excitatory neuron
equations contain `dtheta/dt = -theta / tc_theta` and the reset string
`scr_e` adds `theta_plus_e` on each spike.  Test mode: the equations declare
`theta : volt` (a constant parameter, no dynamics) and `scr_e` leaves
`theta` untouched.  Values are in millivolt/millisecond units. -/

/-- One Euler integration step of the training-mode equation
`dtheta/dt = -theta / tc_theta`. -/
def thetaIntegrationStepTrain (dt tcTheta theta : ℚ) : ℚ :=
  theta + dt * (-theta / tcTheta)

/-- Training-mode spike reset contribution of `scr_e`:
`theta += theta_plus_e`. -/
def thetaSpikeResetTrain (thetaPlusE theta : ℚ) : ℚ := theta + thetaPlusE

/-- Test-mode integration: `theta : volt` is a constant parameter. -/
def thetaIntegrationStepTest (theta : ℚ) : ℚ := theta

/-- Test-mode spike reset: `scr_e = 'v = v_reset_e; timer = 0*ms'` does not
mention `theta`. -/
def thetaSpikeResetTest (theta : ℚ) : ℚ := theta

/-! ## The per-example loop of `main`

The `while j < num_examples` loop is embedded as a step function on an
explicit state.  The Brian2 network run is an external continuous process;
its observable effect on the loop, the per-iteration excitatory spike-count
delta `current_spike_count`, is passed to the step as an oracle argument.
Each iteration's externally visible actions (weight renormalization, the
presentation, assignment recomputation, plot update, persistence, input
silencing, the resting run) are recorded in an event trace; the trace field
holds the events of the most recent iteration.  The content of the
assignment recomputation itself is modelled separately
(`getNewAssignmentsCode`): in the source that call raises a `TypeError`
before producing a value, so the loop model records its trigger as an
event and leaves the `assignments` field to the standalone analysis. -/

/-- One externally visible action of a loop iteration. -/
inductive Event where
  | normalize : Event
  | present : List ℚ → Event
  | recomputeAssignments : Event
  | updatePlot : Event
  | saveState : Event
  | silence : Event
  | rest : Event
deriving DecidableEq

/-- The configuration the loop body reads (`config`, the locals of `main`,
and the dataset, with `pixels idx` the flattened image `x[idx]` and
`labels idx` the label `y[idx]`). -/
structure LoopParams where
  testMode : Bool
  numExamples : ℕ
  updateInterval : ℕ
  weightUpdateInterval : ℕ
  saveConnectionsInterval : ℕ
  startIntensity : ℚ
  datasetSize : ℕ
  pixels : ℕ → List ℚ
  labels : ℕ → ℕ
  numClasses : ℕ

/-- The mutable state of the per-example loop. -/
structure LoopState where
  j : ℕ
  intensity : ℚ
  inputRates : List ℚ
  presentedRates : List ℚ
  assignments : List ℕ
  resultMonitor : List (List ℕ)
  inputLabels : List ℕ
  predictedRanking : List (List ℕ)
  events : List Event

/-- The state at loop entry: `j = 0`, `input_intensity = 2.` (the
configured base, `start_input_intensity = input_intensity`),
`assignments = np.zeros(n_e)`, `input_labels = [0] * num_examples`,
empty monitors. -/
def initialLoopState (p : LoopParams) (nE : ℕ) : LoopState :=
  { j := 0
    intensity := p.startIntensity
    inputRates := []
    presentedRates := []
    assignments := List.replicate nE 0
    resultMonitor := List.replicate p.updateInterval []
    inputLabels := List.replicate p.numExamples 0
    predictedRanking := List.replicate p.numExamples []
    events := [] }

/-- One iteration of the `while j < num_examples` loop body, given the
spike-count delta `spikeDelta` (`current_spike_count`) observed for this
presentation.  Faithful ordering: renormalization at the top (training mode
only, unconditional), presentation of example `j % datasetSize` at rates
`pixel / 8 * intensity`, then the three periodic blocks gated only by `j`
modulo the configured intervals, then the spike-count test choosing the
retry branch (`intensity += 1`, silence, rest, `j` unchanged) or the
advance branch (record result/label/ranking, silence, rest,
`intensity = start_input_intensity`, `j += 1`). -/
def loopStep (p : LoopParams) (spikeDelta : List ℕ) (s : LoopState) :
    LoopState :=
  let evTop : List Event := if p.testMode then [] else [Event.normalize]
  let rates := (p.pixels (s.j % p.datasetSize)).map
    (fun px => px / 8 * s.intensity)
  let evRun := evTop ++ [Event.present rates]
  let evAssign := evRun ++
    (if s.j % p.updateInterval = 0 ∧ 0 < s.j then
      [Event.recomputeAssignments] else [])
  let evPlot := evAssign ++
    (if s.j % p.weightUpdateInterval = 0 ∧ p.testMode = false then
      [Event.updatePlot] else [])
  let evSave := evPlot ++
    (if s.j % p.saveConnectionsInterval = 0 ∧ 0 < s.j ∧ p.testMode = false
      then [Event.saveState] else [])
  if spikeDelta.sum < 5 then
    { s with
      intensity := s.intensity + 1
      inputRates := List.replicate rates.length 0
      presentedRates := rates
      events := evSave ++ [Event.silence, Event.rest] }
  else
    { s with
      resultMonitor := s.resultMonitor.set (s.j % p.updateInterval) spikeDelta
      inputLabels := s.inputLabels.set s.j (p.labels (s.j % p.datasetSize))
      predictedRanking := s.predictedRanking.set s.j
        (getPredictedClassRanking p.numClasses s.assignments
          (spikeDelta.map (fun n => (n : ℚ))))
      inputRates := List.replicate rates.length 0
      presentedRates := rates
      events := evSave ++ [Event.silence, Event.rest]
      intensity := p.startIntensity
      j := s.j + 1 }

/-- Several consecutive loop iterations, one spike-count delta per
iteration. -/
def runSteps (p : LoopParams) (ds : List (List ℕ)) (s : LoopState) :
    LoopState :=
  ds.foldl (fun t d => loopStep p d t) s

/-- A small concrete training-mode configuration used to instantiate the
loop theorems (two-pixel images, two examples in the dataset). -/
def sampleParams : LoopParams :=
  { testMode := false
    numExamples := 4
    updateInterval := 2
    weightUpdateInterval := 3
    saveConnectionsInterval := 2
    startIntensity := 2
    datasetSize := 2
    pixels := fun _ => [8, 16]
    labels := fun _ => 0
    numClasses := 3 }

/-- A concrete loop state at example index `j = 2` (an index at which both
the assignment-recomputation and the save interval conditions hold). -/
def sampleState : LoopState :=
  { j := 2
    intensity := 2
    inputRates := []
    presentedRates := []
    assignments := [0]
    resultMonitor := [[], []]
    inputLabels := [0, 0, 0, 0]
    predictedRanking := [[], [], [], []]
    events := [] }

/-! ## Theorems -/

/-! ### Supporting lemmas -/

instance (mr : List ℚ) : IsTotal ℕ (rateGE mr) :=
  ⟨fun _ _ => le_total _ _⟩

instance (mr : List ℚ) : IsTrans ℕ (rateGE mr) :=
  ⟨fun _ _ _ h1 h2 => le_trans h2 h1⟩

theorem listSum_map_mul (l : List ℚ) (c : ℚ) :
    (l.map (fun w => w * c)).sum = l.sum * c := by
  induction l with
  | nil => simp
  | cons x xs ih => simp [ih, add_mul]

theorem getD_map_mul (l : List ℚ) (c : ℚ) :
    ∀ i, (l.map (fun w => w * c)).getD i 0 = l.getD i 0 * c := by
  induction l with
  | nil => intro i; simp
  | cons x xs ih =>
      intro i
      cases i with
      | zero => simp
      | succ n => simpa using ih n

theorem normalizeWeights_getD (t : ℚ) (cols : List (List ℚ)) :
    ∀ j, (normalizeWeights t cols).getD j [] =
      normalizeColumn t (cols.getD j []) := by
  induction cols with
  | nil => intro j; simp [normalizeWeights, normalizeColumn]
  | cons c cs ih =>
      intro j
      cases j with
      | zero => simp [normalizeWeights]
      | succ j => simpa [normalizeWeights] using ih j

theorem retryRuns (p : LoopParams) :
    ∀ ds : List (List ℕ), (∀ d ∈ ds, d.sum < 5) → ∀ s : LoopState,
      (runSteps p ds s).intensity = s.intensity + ds.length ∧
      (runSteps p ds s).j = s.j := by
  intro ds
  induction ds with
  | nil => intro _ s; simp [runSteps]
  | cons d rest ih =>
      intro h s
      have hd : d.sum < 5 := h d (by simp)
      have hrest : ∀ x ∈ rest, x.sum < 5 := fun x hx => h x (by simp [hx])
      have hfold : runSteps p (d :: rest) s = runSteps p rest (loopStep p d s) := rfl
      obtain ⟨h1, h2⟩ := ih hrest (loopStep p d s)
      have hint : (loopStep p d s).intensity = s.intensity + 1 := by
        simp [loopStep, if_pos hd]
      have hj : (loopStep p d s).j = s.j := by
        simp [loopStep, if_pos hd]
      refine ⟨?_, ?_⟩
      · rw [hfold, h1, hint]
        simp only [List.length_cons]
        push_cast
        ring
      · rw [hfold, h2, hj]

theorem sumF_fin_aux (l : List ℚ) :
    ∀ acc : ℚ, (l.map FloatVal.fin).foldl FloatVal.add (.fin acc) =
      .fin (acc + l.sum) := by
  induction l with
  | nil => intro acc; simp [FloatVal.add]
  | cons x xs ih =>
      intro acc
      simpa [FloatVal.add, add_assoc] using ih (acc + x)

theorem sumF_fin (l : List ℚ) : sumF (l.map FloatVal.fin) = .fin l.sum := by
  simpa using sumF_fin_aux l 0

theorem getD_map_float (g : ℚ → FloatVal) (l : List ℚ) :
    ∀ i, i < l.length → (l.map g).getD i .nan = g (l.getD i 0) := by
  induction l with
  | nil => intro i hi; simp at hi
  | cons x xs ih =>
      intro i hi
      cases i with
      | zero => simp
      | succ i => simpa using ih i (by simpa using hi)

/-! ### Claim C1 -/

/-- C1: the source's `get_new_assignments` does not compute the per-neuron
assignment its comment and the spec describe.  Past the `np.zeros` shape
typo (which by itself raises `TypeError`), the code takes
`rates.argmax(axis=1)`: a per-CLASS best-neuron vector of length
`num_classes`.  On the records `[[5,0],[0,5],[4,4]]` with labels `[0,1,2]`
(3 classes, 2 neurons) it yields `[0,1,0]`, while the documented per-neuron
assignment is `[0,1]`; on the spec's square 3×3 example the two coincide
at `[0,1,2]`, masking the bug. -/
theorem claimC1 :
    getNewAssignmentsCode 3 2 [[5,0],[0,5],[4,4]] [0,1,2] = [0,1,0]
    ∧ recomputeAssignmentSpec 3 2 [[5,0],[0,5],[4,4]] [0,1,2] = [0,1]
    ∧ recomputeAssignmentSpec 3 3 [[5,0,0],[0,5,0],[0,0,5]] [0,1,2] = [0,1,2]
    ∧ getNewAssignmentsCode 3 2 [[5,0],[0,5],[4,4]] [0,1,2]
        ≠ recomputeAssignmentSpec 3 2 [[5,0],[0,5],[4,4]] [0,1,2] := by
  refine ⟨?_, ?_, ?_, ?_⟩ <;>
    norm_num [getNewAssignmentsCode, recomputeAssignmentSpec, classRates,
      selectRows, vecMean, vecSum, vecAdd, argmaxIdx, argmaxAux,
      List.range_succ, List.replicate]

/-! ### Claim C2 -/

/-- C2 counterexample: weight renormalization is not clamped.  A single
incoming weight `1/2 ∈ [0, wmax]` (with `wmax_ee = 1.0` and the configured
column target `weight['ee_input'] = 78`) is rescaled to `78 > wmax`. -/
theorem claimC2_counterexample :
    (0 ≤ (1:ℚ)/2 ∧ (1:ℚ)/2 ≤ 1)
    ∧ (normalizeColumn 78 [1/2]).getD 0 0 = 78
    ∧ ¬ ((78:ℚ) ≤ 1) := by
  norm_num [normalizeColumn]

/-- C2 (amended): every weight update performed by a plasticity rule's
spike handlers — pair-based/`original`, minimal-triplet, full-triplet,
powerlaw, exponential, symmetric, and the short-term rules `tsodyks`,
`markham`, `moraitis` — leaves the weight in `[0, wmax]`, for any prior
weight and any trace values; weight renormalization, in contrast, is not
clamped (see the counterexample). -/
theorem claimC2 (wmax : ℚ) (hw : 0 ≤ wmax) :
    (∀ nu w post1, 0 ≤ originalPre nu wmax w post1
      ∧ originalPre nu wmax w post1 ≤ wmax)
    ∧ (∀ nu w pre post2, 0 ≤ originalPost nu wmax w pre post2
      ∧ originalPost nu wmax w pre post2 ≤ wmax)
    ∧ (∀ nu w post1, 0 ≤ minimalTripletPre nu wmax w post1
      ∧ minimalTripletPre nu wmax w post1 ≤ wmax)
    ∧ (∀ nu w pre post2, 0 ≤ minimalTripletPost nu wmax w pre post2
      ∧ minimalTripletPost nu wmax w pre post2 ≤ wmax)
    ∧ (∀ nuP nuT w post1 pre2, 0 ≤ fullTripletPre nuP nuT wmax w post1 pre2
      ∧ fullTripletPre nuP nuT wmax w post1 pre2 ≤ wmax)
    ∧ (∀ nuP nuT w pre1 post2, 0 ≤ fullTripletPost nuP nuT wmax w pre1 post2
      ∧ fullTripletPost nuP nuT wmax w pre1 post2 ≤ wmax)
    ∧ (∀ nu tar mu w pre, 0 ≤ powerlawPost nu tar wmax mu w pre
      ∧ powerlawPost nu tar wmax mu w pre ≤ wmax)
    ∧ (∀ expFn nu tar beta w pre,
      0 ≤ exponentialPost expFn nu tar beta wmax w pre
      ∧ exponentialPost expFn nu tar beta wmax w pre ≤ wmax)
    ∧ (∀ nu mu w pre, 0 ≤ symmetricPre nu wmax mu w pre
      ∧ symmetricPre nu wmax mu w pre ≤ wmax)
    ∧ (∀ nu tar mu w pre, 0 ≤ symmetricPost nu tar wmax mu w pre
      ∧ symmetricPost nu tar wmax mu w pre ≤ wmax)
    ∧ (∀ u0 lr u x w, 0 ≤ (tsodyksPre u0 lr wmax u x w).2.2
      ∧ (tsodyksPre u0 lr wmax u x w).2.2 ≤ wmax)
    ∧ (∀ uc lr u x w, 0 ≤ (markhamPre uc lr wmax u x w).2.2
      ∧ (markhamPre uc lr wmax u x w).2.2 ≤ wmax)
    ∧ (∀ nu lr f post1 w, 0 ≤ (moraitisPre nu lr wmax f post1 w).2
      ∧ (moraitisPre nu lr wmax f post1 w).2 ≤ wmax)
    ∧ (∀ nu lr f pre post2 w, 0 ≤ (moraitisPost nu lr wmax f pre post2 w).2
      ∧ (moraitisPost nu lr wmax f pre post2 w).2 ≤ wmax) := by
  refine ⟨?_, ?_, ?_, ?_, ?_, ?_, ?_, ?_, ?_, ?_, ?_, ?_, ?_, ?_⟩ <;>
    intros <;> exact ⟨lo_le_clip _ _ _ hw, clip_le_hi _ _ _⟩

/-- C2 witness: the `original` rule at the source's namespace values
(`nu_ee_pre = 0.0001`, `wmax_ee = 1.0`), weight `1/2`, trace `post1 = 1`. -/
theorem claimC2_witness :
    0 ≤ (1:ℚ)
    ∧ (0 ≤ originalPre (1/10000) 1 (1/2) 1
      ∧ originalPre (1/10000) 1 (1/2) 1 ≤ 1) :=
  ⟨by norm_num, (claimC2 1 (by norm_num)).1 (1/10000) (1/2) 1⟩

/-! ### Claim C3 -/

/-- C3: for a column (the incoming weights of one target neuron) with
positive sum, renormalization preserves all pairwise weight ratios (stated
in cross-multiplied form, which also covers zero weights) and makes the
column sum equal to the configured target — exactly, since the embedding
uses rationals. -/
theorem claimC3 (t : ℚ) (cols : List (List ℚ)) (jIdx : ℕ)
    (hpos : 0 < (cols.getD jIdx []).sum) :
    (∀ i k,
      ((normalizeWeights t cols).getD jIdx []).getD i 0
          * (cols.getD jIdx []).getD k 0
        = (cols.getD jIdx []).getD i 0
          * ((normalizeWeights t cols).getD jIdx []).getD k 0)
    ∧ ((normalizeWeights t cols).getD jIdx []).sum = t := by
  have hne : (cols.getD jIdx []).sum ≠ 0 := ne_of_gt hpos
  rw [normalizeWeights_getD]
  constructor
  · intro i k
    unfold normalizeColumn
    rw [getD_map_mul, getD_map_mul]
    ring
  · unfold normalizeColumn
    rw [listSum_map_mul, mul_comm, div_mul_cancel₀ _ hne]

/-- C3 witness: the configured target `78` on the column `[1, 2]`. -/
theorem claimC3_witness :
    0 < (([[(1:ℚ), 2]]).getD 0 []).sum
    ∧ ((normalizeWeights 78 [[(1:ℚ), 2]]).getD 0 []).sum = 78 :=
  ⟨by norm_num, (claimC3 78 [[1, 2]] 0 (by norm_num)).2⟩

/-! ### Claim C4 -/

/-- C4: `get_predicted_class_ranking` returns a permutation of all class
indices, ordered by non-increasing per-class mean rate, and a class with no
assigned neurons contributes a mean rate of exactly zero (the
`num_assignments > 0` guard — no failure). -/
theorem claimC4 (numClasses : ℕ) (assignments : List ℕ) (rates : List ℚ) :
    List.Perm (getPredictedClassRanking numClasses assignments rates)
      (List.range numClasses)
    ∧ List.Pairwise
      (fun c d => (meanRates numClasses assignments rates).getD d 0
        ≤ (meanRates numClasses assignments rates).getD c 0)
      (getPredictedClassRanking numClasses assignments rates)
    ∧ ∀ i, i < numClasses → (∀ x ∈ assignments, x ≠ i) →
      (meanRates numClasses assignments rates).getD i 0 = 0 := by
  refine ⟨List.perm_insertionSort _ _, ?_, ?_⟩
  · exact List.sorted_insertionSort
      (rateGE (meanRates numClasses assignments rates)) (List.range numClasses)
  intro i hi hnone
  have hfilter :
      ((assignments.zip rates).filter (fun p => p.1 == i)) = [] := by
    rw [List.filter_eq_nil_iff]
    intro p hp
    have hp1 : p.1 ∈ assignments := (List.of_mem_zip hp).1
    simpa using hnone p.1 hp1
  unfold meanRates
  rw [List.getD_eq_getElem?_getD, List.getElem?_map, List.getElem?_range hi]
  simp [hfilter]

/-- C4 witness: three classes, both neurons assigned to class 0, so class 2
has no assigned neurons and its mean rate is zero. -/
theorem claimC4_witness :
    (2 < 3 ∧ ∀ x ∈ [0, 0], x ≠ 2)
    ∧ (meanRates 3 [0, 0] [1, 2]).getD 2 0 = 0 :=
  ⟨⟨by norm_num, by decide⟩,
    (claimC4 3 [0, 0] [1, 2]).2.2 2 (by norm_num) (by decide)⟩

/-! ### Claim C5 -/

/-- C5: when the excitatory spike-count total for a presentation is below
the fixed minimum of 5, the iteration increases the intensity by exactly 1,
silences the inputs, runs the resting duration, and leaves the example
index unchanged (nothing is recorded, the same example is re-presented);
consequently over any sequence of retry iterations the intensity rises by
exactly one per retry and the example index never advances. -/
theorem claimC5 (p : LoopParams) (s : LoopState) (delta : List ℕ)
    (h : delta.sum < 5) :
    (loopStep p delta s).j = s.j
    ∧ (loopStep p delta s).intensity = s.intensity + 1
    ∧ (loopStep p delta s).inputRates =
      List.replicate ((p.pixels (s.j % p.datasetSize)).map
        (fun px => px / 8 * s.intensity)).length 0
    ∧ (loopStep p delta s).presentedRates =
      (p.pixels (s.j % p.datasetSize)).map (fun px => px / 8 * s.intensity)
    ∧ Event.rest ∈ (loopStep p delta s).events
    ∧ (loopStep p delta s).resultMonitor = s.resultMonitor
    ∧ (loopStep p delta s).inputLabels = s.inputLabels
    ∧ ∀ ds : List (List ℕ), (∀ d ∈ ds, d.sum < 5) →
      (runSteps p ds s).intensity = s.intensity + ds.length
      ∧ (runSteps p ds s).j = s.j := by
  refine ⟨?_, ?_, ?_, ?_, ?_, ?_, ?_, fun ds hds => retryRuns p ds hds s⟩ <;>
    simp [loopStep, if_pos h]

/-- C5 witness: a retry (zero spikes) at the sample state, and two
consecutive retries raising the intensity by exactly 2. -/
theorem claimC5_witness :
    ([0] : List ℕ).sum < 5
    ∧ (loopStep sampleParams [0] sampleState).j = sampleState.j
    ∧ (runSteps sampleParams [[0], [0]] sampleState).intensity =
      sampleState.intensity + ([[0], [0]] : List (List ℕ)).length :=
  ⟨by decide, (claimC5 sampleParams sampleState [0] (by decide)).1,
    ((claimC5 sampleParams sampleState [0] (by decide)).2.2.2.2.2.2.2
      [[0], [0]] (by decide)).1⟩

/-! ### Claim C6 -/

/-- C6 counterexample: at the sample training-mode configuration
(`update_interval = 2`, `save_connections_interval = 2`) and example index
`j = 2`, an iteration whose spike total is 0 — a RETRY iteration, the
example index does not advance — still performs weight renormalization,
assignment recomputation, and persistence, contradicting the claim that
these happen only during ADVANCE and that renormalization is not on every
presentation. -/
theorem claimC6_counterexample :
    ([0] : List ℕ).sum < 5
    ∧ (loopStep sampleParams [0] sampleState).j = sampleState.j
    ∧ Event.normalize ∈ (loopStep sampleParams [0] sampleState).events
    ∧ Event.recomputeAssignments ∈
      (loopStep sampleParams [0] sampleState).events
    ∧ Event.saveState ∈ (loopStep sampleParams [0] sampleState).events := by
  refine ⟨by decide, ?_, ?_, ?_, ?_⟩ <;>
    simp [loopStep, sampleParams, sampleState]

/-- C6 (amended): the periodic side effects are triggered in every loop
iteration — after the run, before the spike-count test — gated only by the
example index modulo the configured intervals, regardless of whether the
iteration ends in RETRY or ADVANCE; in training mode weight renormalization
runs at the top of every iteration (every presentation, retries included),
and since the index does not advance on a retry, assignment recomputation
and persistence can fire repeatedly during retries of one example. -/
theorem claimC6 (p : LoopParams) (s : LoopState) (delta : List ℕ)
    (h : p.testMode = false) :
    Event.normalize ∈ (loopStep p delta s).events
    ∧ (Event.recomputeAssignments ∈ (loopStep p delta s).events ↔
      s.j % p.updateInterval = 0 ∧ 0 < s.j)
    ∧ (Event.saveState ∈ (loopStep p delta s).events ↔
      s.j % p.saveConnectionsInterval = 0 ∧ 0 < s.j)
    ∧ (Event.updatePlot ∈ (loopStep p delta s).events ↔
      s.j % p.weightUpdateInterval = 0) := by
  by_cases hd : delta.sum < 5 <;>
    refine ⟨?_, ?_, ?_, ?_⟩ <;>
      by_cases h1 : s.j % p.updateInterval = 0 ∧ 0 < s.j <;>
        by_cases h2 : s.j % p.saveConnectionsInterval = 0 ∧ 0 < s.j <;>
          by_cases h3 : s.j % p.weightUpdateInterval = 0 <;>
            simp [loopStep, h, hd, h1, h2, h3]

/-- C6 witness: the amended statement at the sample training configuration
with an ADVANCE-sized spike count. -/
theorem claimC6_witness :
    sampleParams.testMode = false
    ∧ Event.normalize ∈ (loopStep sampleParams [9] sampleState).events :=
  ⟨rfl, (claimC6 sampleParams sampleState [9] rfl).1⟩

/-! ### Claim C9 -/

/-- C9: every presentation applies the rate vector
`pixel_value / 8 * intensity` to the Poisson input group; the intensity is
`start_input_intensity` at loop entry and is reset to it by every ADVANCE
iteration (spike total at least 5). -/
theorem claimC9 (p : LoopParams) (s : LoopState) (delta : List ℕ) :
    (loopStep p delta s).presentedRates =
      (p.pixels (s.j % p.datasetSize)).map (fun px => px / 8 * s.intensity)
    ∧ (5 ≤ delta.sum → (loopStep p delta s).intensity = p.startIntensity)
    ∧ ∀ nE, (initialLoopState p nE).intensity = p.startIntensity := by
  by_cases hd : delta.sum < 5
  · refine ⟨?_, fun hge => absurd hge (by omega), fun nE => rfl⟩
    simp [loopStep, if_pos hd]
  · refine ⟨?_, fun _ => ?_, fun nE => rfl⟩ <;> simp [loopStep, if_neg hd]

/-- C9 witness: an ADVANCE iteration (spike total 9 ≥ 5) resets the
intensity to the configured base. -/
theorem claimC9_witness :
    5 ≤ ([9] : List ℕ).sum
    ∧ (loopStep sampleParams [9] sampleState).intensity =
      sampleParams.startIntensity :=
  ⟨by decide, (claimC9 sampleParams sampleState [9]).2.1 (by decide)⟩

/-! ### Claim C10 -/

/-- C10: when a target neuron's incoming weights sum to zero,
`normalize_weights` divides the configured target (78) by zero — the
column factor is a non-finite value (`inf`) — and every resulting weight of
that column is non-finite (`nan` or `±inf`), hence in particular different
from the (finite) weight it replaces; the operation is total (no dedicated
error is raised). -/
theorem claimC10 (col : List ℚ) (hsum : col.sum = 0) :
    FloatVal.isFinite
      ((FloatVal.fin 78).div (sumF (col.map FloatVal.fin))) = false
    ∧ ∀ i, i < col.length →
      FloatVal.isFinite
        ((normalizeColumnF (.fin 78) (col.map .fin)).getD i .nan) = false
      ∧ (normalizeColumnF (.fin 78) (col.map .fin)).getD i .nan
        ≠ .fin (col.getD i 0) := by
  have hs : sumF (col.map FloatVal.fin) = .fin 0 := by
    rw [sumF_fin, hsum]
  have hdiv : (FloatVal.fin 78).div (sumF (col.map FloatVal.fin)) =
      .inf false := by
    rw [hs]
    simp [FloatVal.div]
  refine ⟨by rw [hdiv]; rfl, ?_⟩
  intro i hi
  have hentry : (normalizeColumnF (.fin 78) (col.map .fin)).getD i .nan =
      (FloatVal.fin (col.getD i 0)).mul (.inf false) := by
    unfold normalizeColumnF
    rw [hdiv, List.map_map]
    exact getD_map_float _ col i hi
  rw [hentry]
  generalize col.getD i 0 = q
  by_cases hq : q = 0
  · subst hq
    simp [FloatVal.mul, FloatVal.isFinite]
  · simp [FloatVal.mul, hq, FloatVal.isFinite]

/-- C10 witness: a target neuron whose two incoming weights are both zero;
its rescaled first weight is non-finite (`0 * inf = nan`). -/
theorem claimC10_witness :
    (([(0:ℚ), 0]).sum = 0 ∧ 0 < ([(0:ℚ), 0]).length)
    ∧ FloatVal.isFinite
      ((normalizeColumnF (.fin 78) (([(0:ℚ), 0]).map .fin)).getD 0 .nan)
      = false :=
  ⟨⟨by norm_num, by norm_num⟩,
    ((claimC10 [0, 0] (by norm_num)).2 0 (by norm_num)).1⟩

/-! ### Claim C7 -/

/-- C7 counterexample: in training mode theta is NOT non-decreasing between
spikes.  One Euler step of `dtheta/dt = -theta / tc_theta` at the source's
values (`dt = 0.1 ms`, `tc_theta = 1e7 ms`) from `theta = 20 mV` strictly
decreases it. -/
theorem claimC7_counterexample :
    thetaIntegrationStepTrain (1/10) (10^7) 20 < 20 := by
  norm_num [thetaIntegrationStepTrain]

/-- C7 (amended): in test mode theta is frozen (unchanged by integration
and by the spike reset); in training mode theta rises by `theta_plus_e` on
each spike but DECAYS between spikes — each Euler step of
`dtheta/dt = -theta / tc_theta` is non-increasing (and preserves
nonnegativity), so theta is not monotone over a training run. -/
theorem claimC7 (dt tcTheta thetaPlusE theta : ℚ) :
    thetaIntegrationStepTest theta = theta
    ∧ thetaSpikeResetTest theta = theta
    ∧ (0 < thetaPlusE → theta < thetaSpikeResetTrain thetaPlusE theta)
    ∧ (0 ≤ theta → 0 ≤ dt → 0 < tcTheta → dt ≤ tcTheta →
      thetaIntegrationStepTrain dt tcTheta theta ≤ theta
      ∧ 0 ≤ thetaIntegrationStepTrain dt tcTheta theta) := by
  refine ⟨rfl, rfl, fun hp => by unfold thetaSpikeResetTrain; linarith, ?_⟩
  intro hth hdt htc hdtc
  have hkey : thetaIntegrationStepTrain dt tcTheta theta =
      theta * (1 - dt / tcTheta) := by
    unfold thetaIntegrationStepTrain
    ring
  have hnn : 0 ≤ dt / tcTheta := div_nonneg hdt (le_of_lt htc)
  have hle1 : dt / tcTheta ≤ 1 := (div_le_one htc).mpr hdtc
  constructor
  · rw [hkey]
    nlinarith
  · rw [hkey]
    exact mul_nonneg hth (by linarith)

/-- C7 witness: the source's values `dt = 0.1 ms`, `tc_theta = 1e7 ms`,
`theta_plus_e = 0.05 mV`, from `theta = 20 mV`. -/
theorem claimC7_witness :
    (0 < (1:ℚ)/20 ∧ (0:ℚ) ≤ 20 ∧ (0:ℚ) ≤ 1/10 ∧ (0:ℚ) < 10^7
      ∧ (1:ℚ)/10 ≤ 10^7)
    ∧ (20:ℚ) < thetaSpikeResetTrain (1/20) 20
    ∧ thetaIntegrationStepTrain (1/10) (10^7) 20 ≤ 20 :=
  ⟨by norm_num,
    (claimC7 (1/10) (10^7) (1/20) 20).2.2.1 (by norm_num),
    ((claimC7 (1/10) (10^7) (1/20) 20).2.2.2 (by norm_num) (by norm_num)
      (by norm_num) (by norm_num)).1⟩

/-! ### Claim C8 -/

/-- C8 counterexample: the pair-based/`original` rule's pre-spike handler
INCREASES the weight.  At the source's namespace values
(`nu_ee_pre = 0.0001`, `wmax_ee = 1.0`), weight `1/2` and post-synaptic
trace `post1 = 1` (its value right after a post spike), the update
`w = clip(w + nu_ee_pre * post1, 0, wmax_ee)` yields `5001/10000 > 1/2`. -/
theorem claimC8_counterexample :
    originalPre (1/10000) 1 (1/2) 1 = 5001/10000
    ∧ (1:ℚ)/2 < 5001/10000 := by
  constructor
  · unfold originalPre clip
    norm_num [max_def, min_def]
  · norm_num

/-- C8 (amended): the pre-spike weight change is non-positive for the
minimal-triplet, full-triplet and symmetric rules, and zero for the
powerlaw and exponential rules (their pre handlers only bump the trace);
but the pair-based/`original` rule's pre-spike update adds
`nu_ee_pre * post1` — a non-negative, potentiating change (the sign the
source comment flags as apparently wrong versus the referenced model) —
and the short-term rules' (`markham`, `tsodyks`, `moraitis`) pre-spike
weight updates are likewise non-decreasing. -/
theorem claimC8 :
    (∀ nu wmax w post1, 0 ≤ w → 0 ≤ post1 → 0 ≤ nu →
      minimalTripletPre nu wmax w post1 ≤ w)
    ∧ (∀ nuP nuT wmax w post1 pre2, 0 ≤ w → 0 ≤ post1 → 0 ≤ nuP →
      0 ≤ nuT → 0 ≤ pre2 → fullTripletPre nuP nuT wmax w post1 pre2 ≤ w)
    ∧ (∀ nu wmax mu w pre, 0 ≤ w → 0 ≤ pre → 0 ≤ nu →
      symmetricPre nu wmax mu w pre ≤ w)
    ∧ (∀ pre w, (powerlawPre pre w).2 = w ∧ (exponentialPre pre w).2 = w)
    ∧ (∀ nu wmax w post1, 0 ≤ nu → 0 ≤ post1 → w ≤ wmax →
      w ≤ originalPre nu wmax w post1)
    ∧ (∀ uc lr wmax u x w, 0 ≤ u → 0 ≤ x → 0 ≤ w → 0 ≤ lr → w ≤ wmax →
      w ≤ (markhamPre uc lr wmax u x w).2.2)
    ∧ (∀ u0 lr wmax u x w, 0 ≤ u → u ≤ 1 → 0 ≤ u0 → 0 ≤ x → 0 ≤ w →
      0 ≤ lr → w ≤ wmax → w ≤ (tsodyksPre u0 lr wmax u x w).2.2)
    ∧ (∀ nu lrPre wmax f post1 w, 0 ≤ wmax → 0 ≤ lrPre → w ≤ wmax →
      w ≤ (moraitisPre nu lrPre wmax f post1 w).2) := by
  refine ⟨?_, ?_, ?_, ?_, ?_, ?_, ?_, ?_⟩
  · intro nu wmax w post1 hw hp hn
    exact clip_sub_le_self w _ wmax hw (mul_nonneg hp hn)
  · intro nuP nuT wmax w post1 pre2 hw hp hnp hnt hp2
    exact clip_sub_le_self w _ wmax hw
      (mul_nonneg hp (by positivity))
  · intro nu wmax mu w pre hw hp hn
    exact clip_sub_le_self w _ wmax hw (by positivity)
  · intro pre w
    exact ⟨rfl, rfl⟩
  · intro nu wmax w post1 hn hp hwm
    exact self_le_clip_add w _ wmax (mul_nonneg hn hp) hwm
  · intro uc lr wmax u x w hu hx hw hl hwm
    exact self_le_clip_add w _ wmax (by positivity) hwm
  · intro u0 lr wmax u x w hu hu1 hu0 hx hw hl hwm
    have hfac : 0 ≤ u + u0 * (1 - u) := by nlinarith
    exact self_le_clip_add w _ wmax (by positivity) hwm
  · intro nu lrPre wmax f post1 w hwx hl hwm
    have hf : 0 ≤ clip (f + nu * post1) 0 wmax := lo_le_clip _ _ _ hwx
    exact self_le_clip_add w _ wmax (mul_nonneg hf hl) hwm

/-- C8 witness: the minimal-triplet pre-spike depression at the source's
values (`nu_pair_pre = 0.0001`, `wmax = 1.0`), weight `1/2`, trace
`post1 = 1`. -/
theorem claimC8_witness :
    (0 ≤ (1:ℚ)/2 ∧ 0 ≤ (1:ℚ) ∧ 0 ≤ (1:ℚ)/10000)
    ∧ minimalTripletPre (1/10000) 1 (1/2) 1 ≤ 1/2 :=
  ⟨⟨by norm_num, by norm_num, by norm_num⟩,
    claimC8.1 (1/10000) 1 (1/2) 1 (by norm_num) (by norm_num) (by norm_num)⟩

end StdpMnist
